import Mathlib

/-!
Verification development for the gumwood GraphQL schema core
(`src/schema.rs`): the introspection-response parser, the type-reference
decoration algorithm, and the schema navigation API. The Rust source is
shallowly embedded: structs become Lean structures (the recursive
`TypeRef` becomes an inductive), `Option<T>` becomes `Option`,
`Result<T, Box<dyn Error>>` becomes `Except`, and Rust `String` becomes
Lean `String` (a wrapper around `List Char` in this toolchain).
-/

namespace Gumwood

/-- Embeds `const TYPE_LEVELS: u32 = 7;`. -/
def TYPE_LEVELS : Nat := 7

/-- Embeds `struct TypeRef { name: Option<String>, kind: Option<String>,
of_type: Option<Box<TypeRef>> }`.  Rust's `Box` indirection is dropped:
Lean inductives are already heap-allocated trees. -/
inductive TypeRef where
  | mk (name : Option String) (kind : Option String) (of_type : Option TypeRef)

/-- Projection for the `name` field of `TypeRef`. -/
def TypeRef.name : TypeRef → Option String
  | .mk n _ _ => n

/-- Projection for the `kind` field of `TypeRef`. -/
def TypeRef.kind : TypeRef → Option String
  | .mk _ k _ => k

/-- Projection for the `of_type` field of `TypeRef`. -/
def TypeRef.of_type : TypeRef → Option TypeRef
  | .mk _ _ o => o

/-- Embeds `TypeRef::is_required`:
`self.kind.is_some() && self.kind.as_ref().unwrap() == "NON_NULL"`. -/
def TypeRef.is_required (t : TypeRef) : Bool :=
  match t.kind with
  | some k => k == "NON_NULL"
  | none => false

/-- Embeds `TypeRef::is_list`:
`self.kind.is_some() && self.kind.as_ref().unwrap() == "LIST"`. -/
def TypeRef.is_list (t : TypeRef) : Bool :=
  match t.kind with
  | some k => k == "LIST"
  | none => false

/-- Embeds `TypeRef::recurse_decorated_name(&self, level: u32)`: at level 0
return `""`; otherwise the base is this node's `name` if present, else the
recursive decoration of `of_type` at `level - 1` (or `""` if absent); then
append `!` when required and wrap in `[` `]` when a list. -/
def TypeRef.recurse_decorated_name : TypeRef → Nat → String
  | _, 0 => ""
  | t, l + 1 =>
      let name :=
        match t.name with
        | some name => name
        | none =>
            match t.of_type with
            | some typ => typ.recurse_decorated_name l
            | none => ""
      let s := name
      let s := if t.is_required then s ++ "!" else s
      let s := if t.is_list then "[" ++ s ++ "]" else s
      s

/-- Embeds `TypeRef::decorated_name`: `self.recurse_decorated_name(TYPE_LEVELS)`. -/
def TypeRef.decorated_name (t : TypeRef) : String :=
  t.recurse_decorated_name TYPE_LEVELS

/-- Cuts a `TypeRef` wrapper chain after `n` nodes, blanking everything
deeper.  Used to state that decoration ignores chain content beyond the
recursion budget. -/
def TypeRef.truncate : Nat → TypeRef → TypeRef
  | 0, _ => .mk none none none
  | n + 1, t => .mk t.name t.kind (t.of_type.map (TypeRef.truncate n))

/-- A chain of `n` `NON_NULL` wrapper nodes (no name) around an innermost
`NON_NULL` node that carries `name`.  `nonNullChain name 7` is a chain of
8 nodes in total. -/
def nonNullChain (name : String) : Nat → TypeRef
  | 0 => .mk (some name) (some "NON_NULL") none
  | n + 1 => .mk none (some "NON_NULL") (some (nonNullChain name n))

/-- Char-level embedding of Rust `str::trim`: drop whitespace from both
ends.  (Rust trims Unicode whitespace; the inputs of this model are
covered by `Char.isWhitespace`, which handles space, tab, CR and LF.) -/
def trimList (s : List Char) : List Char :=
  ((s.dropWhile Char.isWhitespace).reverse.dropWhile Char.isWhitespace).reverse

/-- Char-level embedding of Rust `String::replace("\n", "")` — with a
single-character pattern and an empty replacement this removes every
newline character. -/
def removeNewlines (s : List Char) : List Char :=
  s.filter (fun c => c ≠ '\n')

/-- Embeds `fn to_safe_string(opt_s: &Option<String>) -> String`:
`Some(s) => s.trim().replace("\n", "")`, `None => ""`. -/
def to_safe_string (opt_s : Option String) : String :=
  match opt_s with
  | some s => ⟨removeNewlines (trimList s.data)⟩
  | none => ""

/-- Embeds `struct Input` (`name`, `description`,
`input_type` ← `type`, `default_value` ← `defaultValue`). -/
structure Input where
  name : Option String
  description : Option String
  input_type : Option TypeRef
  default_value : Option String

/-- Embeds `struct Field` (`name`, `description`, `args`,
`field_type` ← `type`, `is_deprecated` ← `isDeprecated`,
`deprecation_reason` ← `deprecationReason`). -/
structure Field where
  name : Option String
  description : Option String
  args : Option (List Input)
  field_type : Option TypeRef
  is_deprecated : Option Bool
  deprecation_reason : Option String

/-- Embeds `struct Enum` (one enum *value*). -/
structure Enum where
  name : Option String
  description : Option String
  is_deprecated : Option Bool
  deprecation_reason : Option String

/-- Embeds `struct Type`.  Named `SchemaType` because `Type` is reserved
in Lean.  Field `inputs` ← `inputFields`, `enums` ← `enumValues`,
`possible_types` ← `possibleTypes`. -/
structure SchemaType where
  name : Option String
  kind : Option String
  description : Option String
  fields : Option (List Field)
  inputs : Option (List Input)
  interfaces : Option (List TypeRef)
  enums : Option (List Enum)
  possible_types : Option (List TypeRef)

/-- Embeds `struct Directive`. -/
structure Directive where
  name : Option String
  description : Option String
  locations : Option (List String)
  args : Option (List Input)

/-- Embeds `struct Schema` (`query_type` ← `queryType`,
`mutation_type` ← `mutationType`, `subscription_type` ←
`subscriptionType`). -/
structure Schema where
  query_type : Option SchemaType
  mutation_type : Option SchemaType
  subscription_type : Option SchemaType
  types : Option (List SchemaType)
  directives : Option (List Directive)

/-- Embeds `impl TableItem for Field::table_fields`. -/
def Field.table_fields (f : Field) : List String :=
  let type_name :=
    match f.field_type with
    | some typ => typ.decorated_name
    | none => ""
  [to_safe_string f.name, type_name, to_safe_string f.description]

/-- Embeds `impl TableItem for Input::table_fields`. -/
def Input.table_fields (i : Input) : List String :=
  let type_name :=
    match i.input_type with
    | some typ => typ.decorated_name
    | none => ""
  [to_safe_string i.name, type_name, to_safe_string i.description,
    to_safe_string i.default_value]

/-- Embeds `impl TableItem for Enum::table_fields`: the deprecation cell
is the sanitized reason when `is_deprecated` is `Some(true)` (absence
defaults to `false`), else the literal `"no"`. -/
def Enum.table_fields (e : Enum) : List String :=
  let is_deprecated :=
    match e.is_deprecated with
    | some b => b
    | none => false
  let deprecation_reason := to_safe_string e.deprecation_reason
  let dr := if is_deprecated then deprecation_reason else "no"
  [to_safe_string e.name, to_safe_string e.description, dr]

/-- Embeds `Schema::get_type_name`:
`typ.as_ref().and_then(|typ| typ.name.clone())`. -/
def Schema.get_type_name (typ : Option SchemaType) : Option String :=
  typ.bind fun t => t.name

/-- Embeds `Schema::get_query_name`. -/
def Schema.get_query_name (s : Schema) : Option String :=
  Schema.get_type_name s.query_type

/-- Embeds `Schema::get_mutation_name`. -/
def Schema.get_mutation_name (s : Schema) : Option String :=
  Schema.get_type_name s.mutation_type

/-- Embeds `Schema::get_subscription_name`. -/
def Schema.get_subscription_name (s : Schema) : Option String :=
  Schema.get_type_name s.subscription_type

/-- Embeds `Schema::get_type`: scan `types` in order, return the first
`Type` whose `name` is present and equals the argument; the source's
`for`-loop with an early `return` is exactly `List.find?`. -/
def Schema.get_type (s : Schema) (name : String) : Option SchemaType :=
  match s.types with
  | some types =>
      types.find? fun typ =>
        match typ.name with
        | some n => n == name
        | none => false
  | none => none

/-- Embeds `Schema::get_types_of_kind`: the source's `for`-loop pushing
every `Type` whose `kind` is present and equals the argument is exactly
`List.filter`. -/
def Schema.get_types_of_kind (s : Schema) (kind : String) : List SchemaType :=
  match s.types with
  | some types =>
      types.filter fun typ =>
        match typ.kind with
        | some k => k == kind
        | none => false
  | none => []

/-- Embeds Rust `str::split(':')` as used by the `from_url` header loop:
split at every colon, keeping empty segments (`"".split(':')` yields one
empty segment). -/
def splitOnColon : List Char → List (List Char)
  | [] => [[]]
  | c :: cs =>
      if c = ':' then [] :: splitOnColon cs
      else
        match splitOnColon cs with
        | t :: ts => (c :: t) :: ts
        | [] => [[c]]

/-- Embeds the header loop of `Schema::from_url`:
`let split: Vec<&str> = header.split(':').collect();
 if split.len() == 2 { post = post.header(split[0], split[1]); }`.
Produces the (name, value) pairs added to the request, in order; header
strings that do not split into exactly two parts are skipped.  (The rest
of `from_url` is blocking HTTP I/O, an external collaborator.) -/
def from_url_header_pairs (headers : List (List Char)) :
    List (List Char × List Char) :=
  headers.filterMap fun header =>
    match splitOnColon header with
    | [a, b] => some (a, b)
    | _ => none

end Gumwood

namespace Gumwood

theorem recurse_decorated_name_truncate :
    ∀ (l : Nat) (t : TypeRef),
      (t.truncate l).recurse_decorated_name l = t.recurse_decorated_name l := by
  intro l
  induction l with
  | zero => intro t; rfl
  | succ l ih =>
    intro t
    obtain ⟨n, k, o⟩ := t
    simp only [TypeRef.truncate, TypeRef.recurse_decorated_name,
      TypeRef.name, TypeRef.kind, TypeRef.of_type,
      TypeRef.is_required, TypeRef.is_list]
    match n with
    | some nm => rfl
    | none =>
      match o with
      | none => rfl
      | some typ =>
        simp only [Option.map]
        rw [ih typ]

/-- JSON value tree, the target of the modelled JSON parser.  Numbers
keep their raw literal text: no behavior in this core depends on numeric
values.  Modelled from the spec: `serde_json` is an external dependency
(its source is not part of this repository); the spec describes the parse
stage as "parse it as a JSON object; fail with `InvalidResponse` if it is
not a JSON object or the JSON is malformed". -/
inductive Json where
  | null
  | bool (b : Bool)
  | num (raw : String)
  | str (s : String)
  | arr (elems : List Json)
  | obj (fields : List (String × Json))

/-- JSON insignificant whitespace. -/
def isJsonWs (c : Char) : Bool :=
  c = ' ' || c = '\n' || c = '\t' || c = '\r'

/-- Skip insignificant whitespace. -/
def skipWs (s : List Char) : List Char :=
  s.dropWhile isJsonWs

/-- Value of one hexadecimal digit. -/
def hexVal (c : Char) : Option Nat :=
  if '0' ≤ c ∧ c ≤ '9' then some (c.toNat - '0'.toNat)
  else if 'a' ≤ c ∧ c ≤ 'f' then some (c.toNat - 'a'.toNat + 10)
  else if 'A' ≤ c ∧ c ≤ 'F' then some (c.toNat - 'A'.toNat + 10)
  else none

/-- JSON single-character escape sequences. -/
def unescapeChar (c : Char) : Option Char :=
  if c = '"' then some '"'
  else if c = '\\' then some '\\'
  else if c = '/' then some '/'
  else if c = 'n' then some '\n'
  else if c = 't' then some '\t'
  else if c = 'r' then some '\r'
  else if c = 'b' then some (Char.ofNat 8)
  else if c = 'f' then some (Char.ofNat 12)
  else none

/-- Parse the body of a JSON string after the opening quote; return the
decoded characters and the remaining input after the closing quote. -/
def parseStringBody : List Char → Except String (List Char × List Char)
  | [] => .error "eof while parsing a string"
  | c :: rest =>
      if c = '"' then .ok ([], rest)
      else if c = '\\' then
        match rest with
        | [] => .error "eof in escape sequence"
        | 'u' :: a :: b :: c2 :: d :: rest2 =>
            match hexVal a, hexVal b, hexVal c2, hexVal d with
            | some ha, some hb, some hc, some hd => do
                let (cs, r) ← parseStringBody rest2
                .ok (Char.ofNat (((ha * 16 + hb) * 16 + hc) * 16 + hd) :: cs, r)
            | _, _, _, _ => .error "invalid unicode escape"
        | e :: rest2 =>
            match unescapeChar e with
            | some ec => do
                let (cs, r) ← parseStringBody rest2
                .ok (ec :: cs, r)
            | none => .error "invalid escape"
      else do
        let (cs, r) ← parseStringBody rest
        .ok (c :: cs, r)

/-- Characters that may occur in a JSON number literal. -/
def isNumChar (c : Char) : Bool :=
  c.isDigit || c = '-' || c = '+' || c = '.' || c = 'e' || c = 'E'

mutual

/-- Parse one JSON value; `fuel` bounds the nesting recursion and is set
large enough by `parseJson` that it is never exhausted on a complete
input. -/
def parseValue : Nat → List Char → Except String (Json × List Char)
  | 0, _ => .error "recursion limit exceeded"
  | fuel + 1, s =>
      match skipWs s with
      | [] => .error "eof while parsing a value"
      | c :: rest =>
          if c = '{' then
            match skipWs rest with
            | '}' :: r => .ok (.obj [], r)
            | s2 => parseMembers fuel s2 []
          else if c = '[' then
            match skipWs rest with
            | ']' :: r => .ok (.arr [], r)
            | s2 => parseElems fuel s2 []
          else if c = '"' then do
            let (cs, r) ← parseStringBody rest
            .ok (.str ⟨cs⟩, r)
          else if c = 't' then
            match rest with
            | 'r' :: 'u' :: 'e' :: r => .ok (.bool true, r)
            | _ => .error "expected ident"
          else if c = 'f' then
            match rest with
            | 'a' :: 'l' :: 's' :: 'e' :: r => .ok (.bool false, r)
            | _ => .error "expected ident"
          else if c = 'n' then
            match rest with
            | 'u' :: 'l' :: 'l' :: r => .ok (.null, r)
            | _ => .error "expected ident"
          else if isNumChar c then
            .ok (.num ⟨(c :: rest).takeWhile isNumChar⟩,
              (c :: rest).dropWhile isNumChar)
          else .error "expected value"

/-- Parse the members of a JSON object after its first `{` (first member
onward). -/
def parseMembers : Nat → List Char → List (String × Json) →
    Except String (Json × List Char)
  | 0, _, _ => .error "recursion limit exceeded"
  | fuel + 1, s, acc =>
      match skipWs s with
      | '"' :: rest => do
          let (key, r1) ← parseStringBody rest
          match skipWs r1 with
          | ':' :: r2 => do
              let (v, r3) ← parseValue fuel r2
              match skipWs r3 with
              | ',' :: r4 => parseMembers fuel r4 (acc ++ [(⟨key⟩, v)])
              | '}' :: r4 => .ok (.obj (acc ++ [(⟨key⟩, v)]), r4)
              | _ => .error "expected comma or end of object"
          | _ => .error "expected colon"
      | _ => .error "key must be a string"

/-- Parse the elements of a JSON array after its `[` (first element
onward). -/
def parseElems : Nat → List Char → List Json →
    Except String (Json × List Char)
  | 0, _, _ => .error "recursion limit exceeded"
  | fuel + 1, s, acc => do
      let (v, r1) ← parseValue fuel s
      match skipWs r1 with
      | ',' :: r2 => parseElems fuel r2 (acc ++ [v])
      | ']' :: r2 => .ok (.arr (acc ++ [v]), r2)
      | _ => .error "expected comma or end of array"

end

/-- Modelled from the spec: `serde_json::from_str::<Value>` — parse one
complete JSON document, rejecting trailing non-whitespace. -/
def parseJson (text : String) : Except String Json := do
  let (v, rest) ← parseValue (text.length + 1) text.toList
  match skipWs rest with
  | [] => .ok v
  | _ => .error "trailing characters"

/-- Embeds `serde_json::Map::get` / `Value::get`: key lookup on an
object, `none` on every other value. -/
def Json.get (j : Json) (key : String) : Option Json :=
  match j with
  | .obj fields => (fields.find? fun p => p.1 == key).map fun p => p.2

  | _ => none

/-- The value of the first field of a JSON object whose key is one of
`names` — a `serde` field name together with its `alias`es. -/
def fieldsFind (fields : List (String × Json)) (names : List String) :
    Option Json :=
  (fields.find? fun p => names.contains p.1).map fun p => p.2

/-- `serde` deserialization of an `Option<String>` field: absent or
`null` is `None`; a JSON string is `Some`; anything else is a type
mismatch. -/
def asOptString : Option Json → Except String (Option String)
  | none => .ok none
  | some .null => .ok none
  | some (.str s) => .ok (some s)
  | some _ => .error "invalid type: expected a string"

/-- `serde` deserialization of an `Option<bool>` field. -/
def asOptBool : Option Json → Except String (Option Bool)
  | none => .ok none
  | some .null => .ok none
  | some (.bool b) => .ok (some b)
  | some _ => .error "invalid type: expected a boolean"

/-- `serde` deserialization of a `String` element. -/
def asString : Json → Except String String
  | .str s => .ok s
  | _ => .error "invalid type: expected a string"

/-- `serde` deserialization of an `Option<Vec<T>>` field, given the
element deserializer. -/
def asOptList {α : Type} (dec : Json → Except String α) :
    Option Json → Except String (Option (List α))
  | none => .ok none
  | some .null => .ok none
  | some (.arr xs) => do .ok (some (← xs.mapM dec))
  | some _ => .error "invalid type: expected an array"

mutual

/-- Embeds `serde` deserialization of `TypeRef` (derive `Deserialize`
with alias `ofType` for `of_type`): all fields optional, unknown fields
ignored, non-objects rejected. -/
def TypeRef.fromJson : Json → Except String TypeRef
  | .obj fields => do
      let name ← asOptString (fieldsFind fields ["name"])
      let kind ← asOptString (fieldsFind fields ["kind"])
      let oft ← TypeRef.ofTypeFromFields fields
      .ok (.mk name kind oft)
  | _ => .error "invalid type: expected an object"

/-- The `of_type` / `ofType` field of a `TypeRef` object: first matching
key wins; absent or `null` is `None`; otherwise deserialize the nested
`TypeRef`. -/
def TypeRef.ofTypeFromFields : List (String × Json) →
    Except String (Option TypeRef)
  | [] => .ok none
  | (k, v) :: rest =>
      if k = "of_type" ∨ k = "ofType" then
        match v with
        | .null => .ok none
        | v => do
            let w ← TypeRef.fromJson v
            .ok (some w)
      else TypeRef.ofTypeFromFields rest

end

/-- `serde` deserialization of an `Option<TypeRef>` field. -/
def asOptTypeRef : Option Json → Except String (Option TypeRef)
  | none => .ok none
  | some .null => .ok none
  | some v => do
      let t ← TypeRef.fromJson v
      .ok (some t)

/-- Embeds `serde` deserialization of `Input` (aliases: `type` for
`input_type`, `defaultValue` for `default_value`). -/
def Input.fromJson : Json → Except String Input
  | .obj fields => do
      let name ← asOptString (fieldsFind fields ["name"])
      let description ← asOptString (fieldsFind fields ["description"])
      let input_type ← asOptTypeRef (fieldsFind fields ["input_type", "type"])
      let default_value ←
        asOptString (fieldsFind fields ["default_value", "defaultValue"])
      .ok (Input.mk name description input_type default_value)
  | _ => .error "invalid type: expected an object"

/-- Embeds `serde` deserialization of `Field` (aliases: `type` for
`field_type`, `isDeprecated`, `deprecationReason`). -/
def Field.fromJson : Json → Except String Field
  | .obj fields => do
      let name ← asOptString (fieldsFind fields ["name"])
      let description ← asOptString (fieldsFind fields ["description"])
      let args ← asOptList Input.fromJson (fieldsFind fields ["args"])
      let field_type ← asOptTypeRef (fieldsFind fields ["field_type", "type"])
      let is_deprecated ←
        asOptBool (fieldsFind fields ["is_deprecated", "isDeprecated"])
      let deprecation_reason ←
        asOptString (fieldsFind fields ["deprecation_reason", "deprecationReason"])
      .ok (Field.mk name description args field_type is_deprecated
        deprecation_reason)
  | _ => .error "invalid type: expected an object"

/-- Embeds `serde` deserialization of `Enum` (aliases: `isDeprecated`,
`deprecationReason`). -/
def Enum.fromJson : Json → Except String Enum
  | .obj fields => do
      let name ← asOptString (fieldsFind fields ["name"])
      let description ← asOptString (fieldsFind fields ["description"])
      let is_deprecated ←
        asOptBool (fieldsFind fields ["is_deprecated", "isDeprecated"])
      let deprecation_reason ←
        asOptString (fieldsFind fields ["deprecation_reason", "deprecationReason"])
      .ok (Enum.mk name description is_deprecated deprecation_reason)
  | _ => .error "invalid type: expected an object"

/-- Embeds `serde` deserialization of `Type` (aliases: `inputFields` for
`inputs`, `enumValues` for `enums`, `possibleTypes` for
`possible_types`). -/
def SchemaType.fromJson : Json → Except String SchemaType
  | .obj fields => do
      let name ← asOptString (fieldsFind fields ["name"])
      let kind ← asOptString (fieldsFind fields ["kind"])
      let description ← asOptString (fieldsFind fields ["description"])
      let fs ← asOptList Field.fromJson (fieldsFind fields ["fields"])
      let inputs ←
        asOptList Input.fromJson (fieldsFind fields ["inputs", "inputFields"])
      let interfaces ←
        asOptList TypeRef.fromJson (fieldsFind fields ["interfaces"])
      let enums ←
        asOptList Enum.fromJson (fieldsFind fields ["enums", "enumValues"])
      let possible_types ←
        asOptList TypeRef.fromJson
          (fieldsFind fields ["possible_types", "possibleTypes"])
      .ok (SchemaType.mk name kind description fs inputs interfaces enums
        possible_types)
  | _ => .error "invalid type: expected an object"

/-- `serde` deserialization of an `Option<Type>` field. -/
def asOptSchemaType : Option Json → Except String (Option SchemaType)
  | none => .ok none
  | some .null => .ok none
  | some v => do
      let t ← SchemaType.fromJson v
      .ok (some t)

/-- Embeds `serde` deserialization of `Directive`. -/
def Directive.fromJson : Json → Except String Directive
  | .obj fields => do
      let name ← asOptString (fieldsFind fields ["name"])
      let description ← asOptString (fieldsFind fields ["description"])
      let locations ← asOptList asString (fieldsFind fields ["locations"])
      let args ← asOptList Input.fromJson (fieldsFind fields ["args"])
      .ok (Directive.mk name description locations args)
  | _ => .error "invalid type: expected an object"

/-- Embeds `serde` deserialization of `Schema` (aliases: `queryType`,
`mutationType`, `subscriptionType`). -/
def Schema.fromJson : Json → Except String Schema
  | .obj fields => do
      let query_type ←
        asOptSchemaType (fieldsFind fields ["query_type", "queryType"])
      let mutation_type ←
        asOptSchemaType (fieldsFind fields ["mutation_type", "mutationType"])
      let subscription_type ←
        asOptSchemaType
          (fieldsFind fields ["subscription_type", "subscriptionType"])
      let types ← asOptList SchemaType.fromJson (fieldsFind fields ["types"])
      let directives ←
        asOptList Directive.fromJson (fieldsFind fields ["directives"])
      .ok (Schema.mk query_type mutation_type subscription_type types
        directives)
  | _ => .error "invalid type: expected an object"

/-- The `serde` field names and aliases recognized by `Schema`. -/
def schemaRecognizedKeys : List String :=
  ["query_type", "queryType", "mutation_type", "mutationType",
   "subscription_type", "subscriptionType", "types", "directives"]

/-- Error type of the embedded `Schema::from_str` path.  In Rust every
failure is a `Box<dyn Error>`; the embedding separates the two
`serde_json` error sites from the `SchemaError::new` messages. -/
inductive SchemaErr where
  | jsonError (msg : String)
  | schemaError (msg : String)
  | deserializeError (msg : String)

/-- Spec §7 `InvalidResponse`: the input text is not valid JSON, or is
valid JSON but not a JSON object. -/
def SchemaErr.isInvalidResponse : SchemaErr → Bool
  | .jsonError _ => true
  | .schemaError msg => msg == "response format not an object"
  | .deserializeError _ => false

/-- Spec §7 `MissingData`: the JSON object has no `data` key. -/
def SchemaErr.isMissingData : SchemaErr → Bool
  | .schemaError msg => msg == "data not in response"
  | _ => false

/-- Spec §7 `MissingSchema`: `data` has no `__schema` key. -/
def SchemaErr.isMissingSchema : SchemaErr → Bool
  | .schemaError msg => msg == "schema not in response"
  | _ => false

/-- Embeds `Schema::from_str`: parse the text as JSON, require an object,
navigate `data` then `__schema`, deserialize the result.  The source's
inner `serde_json::from_str(&schema.to_string())` — print the sub-value
and reparse it while deserializing — is modelled as deserializing the
sub-value directly, which is what that round-trip computes. -/
def Schema.from_str (text : String) : Except SchemaErr Schema :=
  match parseJson text with
  | .error e => .error (.jsonError e)
  | .ok v =>
      match v with
      | .obj map =>
          match Json.get (.obj map) "data" with
          | some data =>
              match Json.get data "__schema" with
              | some schema =>
                  match Schema.fromJson schema with
                  | .ok s => .ok s
                  | .error e => .error (.deserializeError e)
              | none => .error (.schemaError "schema not in response")
          | none => .error (.schemaError "data not in response")
      | _ => .error (.schemaError "response format not an object")

/-! Helper lemmas about the embedded operations. -/

theorem splitOnColon_ne_nil (s : List Char) : splitOnColon s ≠ [] := by
  induction s with
  | nil => simp [splitOnColon]
  | cons c cs ih =>
    simp only [splitOnColon]
    by_cases hc : c = ':'
    · simp [hc]
    · simp only [if_neg hc]
      cases h : splitOnColon cs with
      | nil => simp
      | cons t ts => simp

theorem splitOnColon_no_colon (s : List Char) (h : ':' ∉ s) :
    splitOnColon s = [s] := by
  induction s with
  | nil => rfl
  | cons c cs ih =>
    have hc : c ≠ ':' := fun hh => h (hh ▸ List.mem_cons_self c cs)
    have hcs : ':' ∉ cs := fun hm => h (List.mem_cons_of_mem _ hm)
    simp only [splitOnColon, if_neg hc]
    rw [ih hcs]

theorem splitOnColon_append (a b : List Char) (ha : ':' ∉ a) :
    splitOnColon (a ++ ':' :: b) = a :: splitOnColon b := by
  induction a with
  | nil => simp [splitOnColon]
  | cons c a2 ih =>
    have hc : c ≠ ':' := fun hh => ha (hh ▸ List.mem_cons_self c a2)
    have ha2 : ':' ∉ a2 := fun hm => ha (List.mem_cons_of_mem _ hm)
    simp only [List.cons_append, splitOnColon, if_neg hc, List.append_eq]
    rw [ih ha2]

theorem length_splitOnColon (s : List Char) :
    (splitOnColon s).length = s.count ':' + 1 := by
  induction s with
  | nil => rfl
  | cons c cs ih =>
    by_cases hc : c = ':'
    · subst hc
      simp [splitOnColon, List.count_cons]
      omega
    · simp only [splitOnColon, if_neg hc]
      cases h : splitOnColon cs with
      | nil => exact absurd h (splitOnColon_ne_nil cs)
      | cons t ts =>
        rw [h] at ih
        simp only [List.length_cons] at ih ⊢
        rw [List.count_cons]
        simp [hc]
        omega

/-- The per-header contribution of the `from_url` loop is `none` whenever
the split does not have exactly two parts. -/
theorem header_skipped_when_not_two (header : List Char)
    (hlen : (splitOnColon header).length ≠ 2) :
    from_url_header_pairs [header] = [] := by
  have hnone : (match splitOnColon header with
      | [a, b] => some (a, b)
      | _ => none) = (none : Option (List Char × List Char)) := by
    rcases hsc : splitOnColon header with _ | ⟨a, _ | ⟨b, _ | ⟨c, rest⟩⟩⟩
    · rfl
    · rfl
    · exact absurd (by rw [hsc]; rfl) hlen
    · rfl
  simp [from_url_header_pairs, List.filterMap_cons, hnone]

theorem find?_eq_some_split {α : Type} (p : α → Bool) :
    ∀ (l : List α) (a : α), l.find? p = some a →
      ∃ pre post, l = pre ++ a :: post ∧ ∀ u ∈ pre, ¬ p u := by
  intro l
  induction l with
  | nil => intro a h; simp [List.find?] at h
  | cons x xs ih =>
    intro a h
    by_cases hx : p x
    · rw [List.find?_cons_of_pos _ hx] at h
      obtain rfl : x = a := Option.some.inj h
      exact ⟨[], xs, rfl, by simp⟩
    · rw [List.find?_cons_of_neg _ hx] at h
      obtain ⟨pre, post, rfl, hpre⟩ := ih a h
      refine ⟨x :: pre, post, rfl, ?_⟩
      intro u hu
      rcases List.mem_cons.mp hu with rfl | hu2
      · exact hx
      · exact hpre u hu2

theorem head?_dropWhile_false {α : Type} (p : α → Bool) :
    ∀ (l : List α) (c : α), (l.dropWhile p).head? = some c → p c = false := by
  intro l
  induction l with
  | nil => intro c h; simp [List.dropWhile] at h
  | cons a l ih =>
    intro c h
    by_cases ha : p a
    · rw [List.dropWhile_cons_of_pos ha] at h
      exact ih c h
    · rw [List.dropWhile_cons_of_neg ha] at h
      obtain rfl : a = c := Option.some.inj h
      exact Bool.eq_false_iff.mpr ha

theorem trimList_head? (s : List Char) (c : Char)
    (h : (trimList s).head? = some c) : c.isWhitespace = false := by
  unfold trimList at h
  rw [List.head?_reverse] at h
  obtain ⟨t, ht⟩ :=
    List.dropWhile_suffix (l := (s.dropWhile Char.isWhitespace).reverse)
      Char.isWhitespace
  have hgl : ((s.dropWhile Char.isWhitespace).reverse).getLast? = some c := by
    rw [← ht, List.getLast?_append, h]
    rfl
  rw [List.getLast?_reverse] at hgl
  exact head?_dropWhile_false _ _ _ hgl

theorem trimList_getLast? (s : List Char) (c : Char)
    (h : (trimList s).getLast? = some c) : c.isWhitespace = false := by
  unfold trimList at h
  rw [List.getLast?_reverse] at h
  exact head?_dropWhile_false _ _ _ h

theorem to_safe_string_no_newline (s : String) :
    '\n' ∉ (to_safe_string (some s)).data := by
  intro h
  simp only [to_safe_string, removeNewlines] at h
  rw [List.mem_filter] at h
  simp at h

theorem fieldsFind_eq_none (fields : List (String × Json))
    (names : List String) (h : ∀ p ∈ fields, p.1 ∉ names) :
    fieldsFind fields names = none := by
  unfold fieldsFind
  rw [List.find?_eq_none.mpr]
  · rfl
  · intro p hp
    simp only [List.contains, List.elem_eq_mem, decide_eq_true_eq]
    exact h p hp

theorem get_type_pred_iff (name : String) (typ : SchemaType) :
    ((match typ.name with
      | some n => n == name
      | none => false) = true) ↔ typ.name = some name := by
  cases h : typ.name with
  | none => simp
  | some n => simp

end Gumwood

open Gumwood

/-- C1: `decorated_name()` reconstructs the canonical GraphQL type syntax:
a leaf with only a name decorates to that name; a `NON_NULL` leaf to
`name!`; a `LIST` leaf to `[name]`; the chain
`NON_NULL(LIST(NON_NULL(name)))` to `[name!]!`; `NON_NULL` around a
`LIST` leaf with a name to `[name]!`; and a totally empty `TypeRef`
(no name, no kind, no wrapped node) decorates to the empty string. -/
theorem C1_decorated_name_reconstructs_syntax :
    (∀ name : String, (TypeRef.mk (some name) none none).decorated_name = name) ∧
    (∀ name : String,
      (TypeRef.mk (some name) (some "NON_NULL") none).decorated_name = name ++ "!") ∧
    (∀ name : String,
      (TypeRef.mk (some name) (some "LIST") none).decorated_name = "[" ++ name ++ "]") ∧
    (∀ name : String,
      (TypeRef.mk none (some "NON_NULL")
        (some (TypeRef.mk none (some "LIST")
          (some (TypeRef.mk (some name) (some "NON_NULL") none))))).decorated_name
        = "[" ++ name ++ "!" ++ "]" ++ "!") ∧
    (∀ name : String,
      (TypeRef.mk none (some "NON_NULL")
        (some (TypeRef.mk (some name) (some "LIST") none))).decorated_name
        = "[" ++ name ++ "]" ++ "!") ∧
    (TypeRef.mk none none none).decorated_name = "" := by
  refine ⟨?_, ?_, ?_, ?_, ?_, rfl⟩ <;>
    · intro name
      obtain ⟨data⟩ := name
      rfl

/-- C2: `decorated_name()` runs `recurse_decorated_name` with a fixed
budget of exactly 7 levels; at each level the base string is the node's
own name if present, otherwise the recursive decoration of the wrapped
node with the budget decremented by one; a call with budget 0 produces
the empty string; consequently chain content deeper than 7 levels
contributes nothing — decoration is unchanged by truncating the chain
after its first 7 nodes. -/
theorem C2_decoration_budget_is_seven :
    TYPE_LEVELS = 7 ∧
    (∀ t : TypeRef, t.decorated_name = t.recurse_decorated_name 7) ∧
    (∀ t : TypeRef, t.recurse_decorated_name 0 = "") ∧
    (∀ (t : TypeRef) (l : Nat),
      t.recurse_decorated_name (l + 1) =
        (let base :=
          match t.name with
          | some n => n
          | none =>
              match t.of_type with
              | some w => w.recurse_decorated_name l
              | none => ""
         let s := if t.is_required then base ++ "!" else base
         if t.is_list then "[" ++ s ++ "]" else s)) ∧
    (∀ t : TypeRef, t.decorated_name = (t.truncate 7).decorated_name) := by
  refine ⟨rfl, fun t => rfl, fun t => rfl, fun t l => rfl, fun t => ?_⟩
  show t.recurse_decorated_name TYPE_LEVELS
      = (t.truncate 7).recurse_decorated_name TYPE_LEVELS
  exact (recurse_decorated_name_truncate 7 t).symm

/-- C10: when a wrapper chain is deeper than the 7-level budget, only the
node at exhaustion depth decorates to the empty string; each of the outer
7 levels still applies its own decoration around that empty base.  A
chain of 8 `NON_NULL` nodes whose innermost node carries a name decorates
to `"!!!!!!!"` (seven exclamation marks, no name), not to `""`; and in
general a nameless `NON_NULL` wrapper always appends `!` to its wrapped
node's decoration, whatever that decoration is. -/
theorem C10_truncation_keeps_outer_decoration :
    (∀ name : String, (nonNullChain name 7).decorated_name = "!!!!!!!") ∧
    (∀ name : String, (nonNullChain name 7).decorated_name ≠ "") ∧
    (∀ (l : Nat) (w : TypeRef),
      (TypeRef.mk none (some "NON_NULL") (some w)).recurse_decorated_name (l + 1)
        = w.recurse_decorated_name l ++ "!") := by
  refine ⟨fun name => rfl, fun name => ?_, fun l w => rfl⟩
  intro h
  rw [show (nonNullChain name 7).decorated_name = "!!!!!!!" from rfl] at h
  exact absurd h (by decide)

/-- C5: in `from_url`, each caller-supplied header string is split on ':'
into a name and a value; a header string that does not consist of exactly
two colon-separated parts is silently skipped (no failure), and every
header string containing exactly one ':' is sent with the part before the
colon as name and the part after it as value. -/
theorem C5_from_url_header_split :
    (∀ a b : List Char, ':' ∉ a → ':' ∉ b →
      from_url_header_pairs [a ++ ':' :: b] = [(a, b)]) ∧
    (∀ header : List Char, (splitOnColon header).length ≠ 2 →
      from_url_header_pairs [header] = []) ∧
    (∀ header : List Char, header.count ':' ≠ 1 →
      from_url_header_pairs [header] = []) ∧
    (∀ (headers : List (List Char)) (header a b : List Char),
      ':' ∉ a → ':' ∉ b → header = a ++ ':' :: b → header ∈ headers →
      (a, b) ∈ from_url_header_pairs headers) := by
  have hsingle : ∀ a b : List Char, ':' ∉ a → ':' ∉ b →
      (match splitOnColon (a ++ ':' :: b) with
        | [x, y] => some (x, y)
        | _ => none) = some (a, b) := by
    intro a b ha hb
    rw [splitOnColon_append a b ha, splitOnColon_no_colon b hb]
  refine ⟨?_, ?_, ?_, ?_⟩
  · intro a b ha hb
    simp [from_url_header_pairs, List.filterMap_cons, hsingle a b ha hb]
  · exact header_skipped_when_not_two
  · intro header hcount
    refine header_skipped_when_not_two header ?_
    rw [length_splitOnColon]
    omega
  · intro headers header a b ha hb heq hmem
    refine List.mem_filterMap.mpr ⟨header, hmem, ?_⟩
    rw [heq]
    exact hsingle a b ha hb

/-- Witness for C5 at the concrete header string `"A:B"`. -/
theorem C5_from_url_header_split_witness :
    (':' ∉ ['A']) ∧ (':' ∉ ['B']) ∧
    from_url_header_pairs [['A', ':', 'B']] = [(['A'], ['B'])] :=
  ⟨by decide, by decide,
    C5_from_url_header_split.1 ['A'] ['B'] (by decide) (by decide)⟩

/-- C6: `get_type(name)` scans the `types` list in order and returns the
first `Type` whose `name` is present and exactly equals the argument;
it returns none when the list is absent, empty, or has no such type, and
nameless types never match. -/
theorem C6_get_type_first_exact_match :
    (∀ (s : Schema) (name : String), s.types = none → s.get_type name = none) ∧
    (∀ (s : Schema) (name : String), s.types = some [] → s.get_type name = none) ∧
    (∀ (s : Schema) (name : String) (t : SchemaType),
      s.get_type name = some t → t.name = some name) ∧
    (∀ (s : Schema) (name : String) (ts : List SchemaType), s.types = some ts →
      (s.get_type name = none ↔ ∀ t ∈ ts, t.name ≠ some name)) ∧
    (∀ (s : Schema) (name : String) (ts : List SchemaType) (t : SchemaType),
      s.types = some ts → s.get_type name = some t →
      ∃ pre post, ts = pre ++ t :: post ∧ ∀ u ∈ pre, u.name ≠ some name) := by
  refine ⟨?_, ?_, ?_, ?_, ?_⟩
  · intro s name h
    simp [Schema.get_type, h]
  · intro s name h
    simp [Schema.get_type, h]
  · intro s name t h
    unfold Schema.get_type at h
    cases hts : s.types with
    | none => rw [hts] at h; exact absurd h (by simp)
    | some ts =>
      rw [hts] at h
      have h2 : List.find? (fun typ =>
          match typ.name with
          | some n => n == name
          | none => false) ts = some t := h
      have h3 := List.find?_some h2
      exact (get_type_pred_iff name t).mp h3
  · intro s name ts hts
    simp only [Schema.get_type, hts, List.find?_eq_none]
    constructor
    · intro h t hmem
      intro hname
      exact h t hmem ((get_type_pred_iff name t).mpr hname)
    · intro h t hmem hp
      exact h t hmem ((get_type_pred_iff name t).mp hp)
  · intro s name ts t hts h
    rw [Schema.get_type, hts] at h
    obtain ⟨pre, post, rfl, hpre⟩ := find?_eq_some_split _ ts t h
    refine ⟨pre, post, rfl, ?_⟩
    intro u hu hname
    exact hpre u hu ((get_type_pred_iff name u).mpr hname)

/-- Witness for C6 at a one-element types list whose type is named "X". -/
theorem C6_get_type_first_exact_match_witness :
    ((Schema.mk none none none
        (some [SchemaType.mk (some "X") none none none none none none none])
        none).types
      = some [SchemaType.mk (some "X") none none none none none none none]) ∧
    ((Schema.mk none none none
        (some [SchemaType.mk (some "X") none none none none none none none])
        none).get_type "X"
      = some (SchemaType.mk (some "X") none none none none none none none)) ∧
    (∃ pre post,
      [SchemaType.mk (some "X") none none none none none none none]
        = pre ++ SchemaType.mk (some "X") none none none none none none none :: post ∧
      ∀ u ∈ pre, u.name ≠ some "X") :=
  ⟨rfl, rfl,
    C6_get_type_first_exact_match.2.2.2.2
      (Schema.mk none none none
        (some [SchemaType.mk (some "X") none none none none none none none]) none)
      "X" _ _ rfl rfl⟩

/-- C7: `get_types_of_kind(kind)` returns exactly the types whose `kind`
is present and exactly equals the argument, in original order (kindless
types excluded); over four types with kinds FOO, BAR, FOO, absent it
returns exactly the first and third; an absent list yields []. -/
theorem C7_get_types_of_kind_exact_ordered :
    (∀ (s : Schema) (kind : String), s.types = none →
      s.get_types_of_kind kind = []) ∧
    (∀ (s : Schema) (kind : String) (ts : List SchemaType), s.types = some ts →
      s.get_types_of_kind kind
        = ts.filter fun typ =>
            match typ.kind with
            | some k => k == kind
            | none => false) ∧
    (∀ (s : Schema) (kind : String) (t : SchemaType),
      t ∈ s.get_types_of_kind kind → t.kind = some kind) ∧
    (∀ (s : Schema) (kind : String) (ts : List SchemaType), s.types = some ts →
      (s.get_types_of_kind kind).Sublist ts) ∧
    (∀ (s : Schema) (t1 t2 t3 t4 : SchemaType),
      t1.kind = some "FOO" → t2.kind = some "BAR" → t3.kind = some "FOO" →
      t4.kind = none → s.types = some [t1, t2, t3, t4] →
      s.get_types_of_kind "FOO" = [t1, t3]) := by
  refine ⟨?_, ?_, ?_, ?_, ?_⟩
  · intro s kind h
    simp [Schema.get_types_of_kind, h]
  · intro s kind ts hts
    simp [Schema.get_types_of_kind, hts]
  · intro s kind t hmem
    unfold Schema.get_types_of_kind at hmem
    cases hts : s.types with
    | none => rw [hts] at hmem; exact absurd hmem (by simp)
    | some ts =>
      rw [hts] at hmem
      have hp := List.of_mem_filter hmem
      cases hk : t.kind with
      | none => rw [hk] at hp; exact absurd hp (by simp)
      | some k =>
        rw [hk] at hp
        simp only [beq_iff_eq] at hp
        rw [hp]
  · intro s kind ts hts
    rw [Schema.get_types_of_kind, hts]
    exact List.filter_sublist ts
  · intro s t1 t2 t3 t4 h1 h2 h3 h4 hts
    rw [Schema.get_types_of_kind, hts]
    simp [List.filter_cons, h1, h2, h3, h4]

/-- Witness for C7 at four concrete types with kinds FOO, BAR, FOO, absent. -/
theorem C7_get_types_of_kind_exact_ordered_witness :
    (Schema.mk none none none
      (some [SchemaType.mk none (some "FOO") none none none none none none,
             SchemaType.mk none (some "BAR") none none none none none none,
             SchemaType.mk none (some "FOO") none none none none none none,
             SchemaType.mk (some "FOO") none none none none none none none])
      none).get_types_of_kind "FOO"
    = [SchemaType.mk none (some "FOO") none none none none none none,
       SchemaType.mk none (some "FOO") none none none none none none] :=
  C7_get_types_of_kind_exact_ordered.2.2.2.2
    (Schema.mk none none none
      (some [SchemaType.mk none (some "FOO") none none none none none none,
             SchemaType.mk none (some "BAR") none none none none none none,
             SchemaType.mk none (some "FOO") none none none none none none,
             SchemaType.mk (some "FOO") none none none none none none none])
      none)
    _ _ _ _ rfl rfl rfl rfl rfl

/-- C8: `get_query_name` / `get_mutation_name` / `get_subscription_name`
return the root `Type`'s `name` exactly when both the root `Type` and its
`name` are present, and none otherwise; they never fail. -/
theorem C8_root_name_accessors :
    (∀ (s : Schema) (t : SchemaType) (n : String),
      s.query_type = some t → t.name = some n → s.get_query_name = some n) ∧
    (∀ s : Schema, s.query_type = none → s.get_query_name = none) ∧
    (∀ (s : Schema) (t : SchemaType),
      s.query_type = some t → t.name = none → s.get_query_name = none) ∧
    (∀ (s : Schema) (t : SchemaType) (n : String),
      s.mutation_type = some t → t.name = some n →
      s.get_mutation_name = some n) ∧
    (∀ s : Schema, s.mutation_type = none → s.get_mutation_name = none) ∧
    (∀ (s : Schema) (t : SchemaType),
      s.mutation_type = some t → t.name = none → s.get_mutation_name = none) ∧
    (∀ (s : Schema) (t : SchemaType) (n : String),
      s.subscription_type = some t → t.name = some n →
      s.get_subscription_name = some n) ∧
    (∀ s : Schema, s.subscription_type = none →
      s.get_subscription_name = none) ∧
    (∀ (s : Schema) (t : SchemaType),
      s.subscription_type = some t → t.name = none →
      s.get_subscription_name = none) := by
  refine ⟨?_, ?_, ?_, ?_, ?_, ?_, ?_, ?_, ?_⟩ <;>
    · intros
      simp_all [Schema.get_query_name, Schema.get_mutation_name,
        Schema.get_subscription_name, Schema.get_type_name, Option.bind]

/-- Witness for C8 at `queryType: {name: "Query"}`. -/
theorem C8_root_name_accessors_witness :
    ((Schema.mk (some (SchemaType.mk (some "Query") none none none none none none none))
        none none none none).query_type
      = some (SchemaType.mk (some "Query") none none none none none none none)) ∧
    ((SchemaType.mk (some "Query") none none none none none none none).name
      = some "Query") ∧
    ((Schema.mk (some (SchemaType.mk (some "Query") none none none none none none none))
        none none none none).get_query_name = some "Query") :=
  ⟨rfl, rfl, C8_root_name_accessors.1 _ _ _ rfl rfl⟩

/-- C9: an `Enum` row is [sanitized name, sanitized description,
deprecation cell], the deprecation cell being the sanitized reason
exactly when `isDeprecated` is true (absence defaults to false) and the
literal "no" otherwise, even when reason text is present; sanitization of
an absent text attribute yields "", and of a present one the text with
leading/trailing whitespace trimmed (the head and last characters of the
trim are never whitespace) and every newline character removed. -/
theorem C9_enum_row_and_sanitization :
    (∀ e : Enum,
      e.table_fields =
        [to_safe_string e.name, to_safe_string e.description,
          if e.is_deprecated = some true then to_safe_string e.deprecation_reason
          else "no"]) ∧
    to_safe_string none = "" ∧
    (∀ s : String, to_safe_string (some s) = ⟨removeNewlines (trimList s.data)⟩) ∧
    (∀ s : String, '\n' ∉ (to_safe_string (some s)).data) ∧
    (∀ (s : List Char) (c : Char),
      (trimList s).head? = some c → c.isWhitespace = false) ∧
    (∀ (s : List Char) (c : Char),
      (trimList s).getLast? = some c → c.isWhitespace = false) := by
  refine ⟨?_, rfl, fun s => rfl, to_safe_string_no_newline, trimList_head?,
    trimList_getLast?⟩
  intro e
  obtain ⟨n, d, idep, reason⟩ := e
  match idep with
  | none => rfl
  | some true => rfl
  | some false => rfl

/-- Witness for C9 at the concrete text `" a "` (trim facts applied at
`[' ', 'a']` and `['a', ' ']`). -/
theorem C9_enum_row_and_sanitization_witness :
    ((trimList [' ', 'a']).head? = some 'a' ∧ 'a'.isWhitespace = false) ∧
    ((trimList ['a', ' ']).getLast? = some 'a' ∧ 'a'.isWhitespace = false) :=
  ⟨⟨by decide, C9_enum_row_and_sanitization.2.2.2.2.1 [' ', 'a'] 'a' (by decide)⟩,
   ⟨by decide, C9_enum_row_and_sanitization.2.2.2.2.2 ['a', ' '] 'a' (by decide)⟩⟩

/-- C3: `from_str` validates the envelope in a fixed order with a
distinct error at each stage: a JSON parse failure (or valid JSON that is
not an object) is of the `InvalidResponse` class; an object with no
`data` key fails `MissingData`; a `data` value with no `__schema` key
fails `MissingSchema`; an `__schema` payload that does not conform to the
data model fails with a deserialization error.  Concretely `"test"` fails
`InvalidResponse`, `{}` fails `MissingData`, `{"data":{}}` fails
`MissingSchema`; and no failure produces a `Schema` value. -/
theorem C3_from_str_staged_validation :
    (∀ (text : String) (e : String), parseJson text = .error e →
      Schema.from_str text = .error (.jsonError e) ∧
      (SchemaErr.jsonError e).isInvalidResponse = true) ∧
    (∀ (text : String) (v : Json), parseJson text = .ok v →
      (∀ fields, v ≠ .obj fields) →
      Schema.from_str text
          = .error (.schemaError "response format not an object") ∧
      (SchemaErr.schemaError "response format not an object").isInvalidResponse
          = true) ∧
    (∀ (text : String) (fields : List (String × Json)),
      parseJson text = .ok (.obj fields) →
      Json.get (.obj fields) "data" = none →
      Schema.from_str text = .error (.schemaError "data not in response") ∧
      (SchemaErr.schemaError "data not in response").isMissingData = true) ∧
    (∀ (text : String) (fields : List (String × Json)) (data : Json),
      parseJson text = .ok (.obj fields) →
      Json.get (.obj fields) "data" = some data →
      Json.get data "__schema" = none →
      Schema.from_str text = .error (.schemaError "schema not in response") ∧
      (SchemaErr.schemaError "schema not in response").isMissingSchema = true) ∧
    (∀ (text : String) (fields : List (String × Json)) (data schema : Json)
        (e : String),
      parseJson text = .ok (.obj fields) →
      Json.get (.obj fields) "data" = some data →
      Json.get data "__schema" = some schema →
      Schema.fromJson schema = .error e →
      Schema.from_str text = .error (.deserializeError e)) ∧
    (Schema.from_str "test" = .error (.jsonError "expected ident") ∧
      (SchemaErr.jsonError "expected ident").isInvalidResponse = true) ∧
    (Schema.from_str "\x7b\x7d" = .error (.schemaError "data not in response") ∧
      (SchemaErr.schemaError "data not in response").isMissingData = true) ∧
    (Schema.from_str "\x7b\"data\":\x7b\x7d\x7d"
        = .error (.schemaError "schema not in response") ∧
      (SchemaErr.schemaError "schema not in response").isMissingSchema = true) ∧
    (∀ (text : String) (err : SchemaErr), Schema.from_str text = .error err →
      ∀ s : Schema, Schema.from_str text ≠ .ok s) := by
  refine ⟨?_, ?_, ?_, ?_, ?_, ⟨rfl, rfl⟩, ⟨rfl, rfl⟩, ⟨rfl, rfl⟩, ?_⟩
  · intro text e hp
    refine ⟨?_, rfl⟩
    simp only [Schema.from_str, hp]
  · intro text v hp hv
    refine ⟨?_, rfl⟩
    cases v with
    | obj fields => exact absurd rfl (hv fields)
    | null => simp only [Schema.from_str, hp]
    | bool b => simp only [Schema.from_str, hp]
    | num r => simp only [Schema.from_str, hp]
    | str s => simp only [Schema.from_str, hp]
    | arr xs => simp only [Schema.from_str, hp]
  · intro text fields hp hd
    refine ⟨?_, rfl⟩
    simp only [Schema.from_str, hp, hd]
  · intro text fields data hp hd hs
    refine ⟨?_, rfl⟩
    simp only [Schema.from_str, hp, hd, hs]
  · intro text fields data schema e hp hd hs hj
    simp only [Schema.from_str, hp, hd, hs, hj]
  · intro text err h s hs
    rw [h] at hs
    cases hs

/-- Witness for C3 at the non-JSON input `"test"`. -/
theorem C3_from_str_staged_validation_witness :
    parseJson "test" = .error "expected ident" ∧
    Schema.from_str "test" = .error (.jsonError "expected ident") :=
  ⟨rfl, (C3_from_str_staged_validation.1 "test" "expected ident" rfl).1⟩

/-- C4: every recognized field of `Schema` (and of every nested entity)
is optional and unknown JSON fields are ignored: deserializing an object
with no recognized keys succeeds with every field absent, and the minimal
input `{"data":{"__schema":{}}}` parses through `from_str` into the
all-absent `Schema` with no error. -/
theorem C4_minimal_schema_parses :
    Schema.from_str "\x7b\"data\":\x7b\"__schema\":\x7b\x7d\x7d\x7d"
      = .ok ⟨none, none, none, none, none⟩ ∧
    (∀ fields : List (String × Json),
      (∀ p ∈ fields, p.1 ∉ schemaRecognizedKeys) →
      Schema.fromJson (.obj fields) = .ok ⟨none, none, none, none, none⟩) ∧
    SchemaType.fromJson (.obj [])
      = .ok ⟨none, none, none, none, none, none, none, none⟩ ∧
    Field.fromJson (.obj []) = .ok ⟨none, none, none, none, none, none⟩ ∧
    Input.fromJson (.obj []) = .ok ⟨none, none, none, none⟩ ∧
    Enum.fromJson (.obj []) = .ok ⟨none, none, none, none⟩ ∧
    Directive.fromJson (.obj []) = .ok ⟨none, none, none, none⟩ ∧
    TypeRef.fromJson (.obj []) = .ok ⟨none, none, none⟩ := by
  refine ⟨rfl, ?_, rfl, rfl, rfl, rfl, rfl, rfl⟩
  intro fields h
  have hq : fieldsFind fields ["query_type", "queryType"] = none :=
    fieldsFind_eq_none _ _ fun p hp hm =>
      h p hp (by simp [schemaRecognizedKeys] at hm ⊢; tauto)
  have hm2 : fieldsFind fields ["mutation_type", "mutationType"] = none :=
    fieldsFind_eq_none _ _ fun p hp hm =>
      h p hp (by simp [schemaRecognizedKeys] at hm ⊢; tauto)
  have hs2 : fieldsFind fields ["subscription_type", "subscriptionType"] = none :=
    fieldsFind_eq_none _ _ fun p hp hm =>
      h p hp (by simp [schemaRecognizedKeys] at hm ⊢; tauto)
  have ht2 : fieldsFind fields ["types"] = none :=
    fieldsFind_eq_none _ _ fun p hp hm =>
      h p hp (by simp [schemaRecognizedKeys] at hm ⊢; tauto)
  have hd2 : fieldsFind fields ["directives"] = none :=
    fieldsFind_eq_none _ _ fun p hp hm =>
      h p hp (by simp [schemaRecognizedKeys] at hm ⊢; tauto)
  simp only [Schema.fromJson, hq, hm2, hs2, ht2, hd2]
  rfl

/-- Witness for C4 at an object with the single unknown key "foo". -/
theorem C4_minimal_schema_parses_witness :
    (∀ p ∈ [("foo", Json.null)], p.1 ∉ schemaRecognizedKeys) ∧
    Schema.fromJson (.obj [("foo", Json.null)])
      = .ok ⟨none, none, none, none, none⟩ :=
  ⟨by decide, C4_minimal_schema_parses.2.1 [("foo", Json.null)] (by decide)⟩
